import Mathlib

/-!
Shallow embedding of the ADF-CSV-Thing log viewer (src/app.py).

The program is a Streamlit script over a pandas DataFrame.  We embed the
in-memory table as a list of rows whose cells are either missing (pandas
NaN/NaT), raw strings, parsed datetimes, or calendar dates; column presence
(`'Status' in df.columns`) is tracked by boolean flags on the table.
Datetime parsing (`pd.to_datetime`) and calendar-date extraction (`.dt.date`)
are external library calls, modelled as parameters `parse : String → Option Nat`
and `dateOf : Nat → Nat` over an abstract instant type.
-/

namespace ADF

/-- A cell of the in-memory table: missing (pandas NaN/NaT), a raw string,
a parsed datetime (abstract instant), or a calendar date. -/
inductive Cell where
  | na : Cell
  | str : String → Cell
  | dt : Nat → Cell
  | date : Nat → Cell
deriving DecidableEq, Repr

/-- One row of the uploaded table.  Only the columns the workflows touch are
named; `pipelineKey` and `dateVal` model the derived columns `PipelineKey`
(app.py line 57) and `Date` (line 144), absent (NaN) until written. -/
structure Row where
  pipelineName : Cell := Cell.na
  runStart : Cell := Cell.na
  status : Cell := Cell.na
  error : Cell := Cell.na
  pipelineKey : Cell := Cell.na
  dateVal : Cell := Cell.na
deriving DecidableEq, Repr

/-- The in-memory DataFrame: which columns exist, plus the rows in file order. -/
structure Table where
  hasPipelineName : Bool := true
  hasRunStart : Bool := true
  hasStatus : Bool := true
  hasError : Bool := true
  hasPipelineKey : Bool := false
  hasDate : Bool := false
  rows : List Row
deriving DecidableEq, Repr

/-- Model of the external `str.lower()`: lowercase every character. -/
def pyLower (s : String) : String :=
  String.mk (s.data.map Char.toLower)

/-- Model of the external Python `str.strip()`: drop whitespace from both
ends. -/
def pyStrip (s : String) : String :=
  String.mk (((s.data.dropWhile Char.isWhitespace).reverse.dropWhile
    Char.isWhitespace).reverse)

/-- `df['Status'].str.lower() == 'failed'` for one cell: a missing value
lowers to NaN and compares unequal, so only string cells can match. -/
def isFailedCell (c : Cell) : Bool :=
  match c with
  | Cell.str s => pyLower s == "failed"
  | _ => false

/-- The failed subset `df[df['Status'].str.lower() == 'failed']` (app.py line 40):
a boolean-mask filter, keeping original row order. -/
def failedRows (t : Table) : List Row :=
  t.rows.filter (fun r => isFailedCell r.status)

/-- Result of rendering the filter block (app.py lines 38-46): the displayed
table, whether `st.warning` fired, and the binding of the Python variable
`failed_df` (`none` when the assignment at line 40 never executed). -/
structure FilterResult where
  filtered : Table
  warned : Bool
  failedTable : Option Table
deriving DecidableEq, Repr

/-- app.py lines 38-46: with the toggle on and a `Status` column, show the
failed subset; with the toggle on and no `Status` column, warn and show the
full table (leaving `failed_df` unassigned); with the toggle off, show the
full table. -/
def failureFilter (t : Table) (showFailedOnly : Bool) : FilterResult :=
  if showFailedOnly then
    if t.hasStatus then
      let fd : Table := { t with rows := failedRows t }
      { filtered := fd, warned := false, failedTable := some fd }
    else
      { filtered := t, warned := true, failedTable := none }
  else
    { filtered := t, warned := false, failedTable := none }

/-- Outcome of the Ask-AI gating check `show_failed_only and not failed_df.empty`
(app.py line 53): the section is offered, hidden, or the lookup of the
never-assigned variable `failed_df` raises a NameError. -/
inductive Gate where
  | offered : Gate
  | hidden : Gate
  | nameError : Gate
deriving DecidableEq, Repr

/-- app.py line 53.  Python `and` short-circuits, so with the toggle off the
unbound `failed_df` is never read; with the toggle on and `failed_df` unbound
the check raises NameError. -/
def tab1Gate (showFailedOnly : Bool) (fr : FilterResult) : Gate :=
  if showFailedOnly then
    match fr.failedTable with
    | some fd => if fd.rows.isEmpty then Gate.hidden else Gate.offered
    | none => Gate.nameError
  else Gate.hidden

/-- app.py line 57, one row: pandas string concatenation
`'Pipeline name' + " - " + 'Run start'`; NaN in either operand propagates. -/
def concatKey (name start : Cell) : Cell :=
  match name, start with
  | Cell.str a, Cell.str b => Cell.str (a ++ " - " ++ b)
  | _, _ => Cell.na

/-- app.py line 57: write the derived `PipelineKey` column into the failed
subset. -/
def deriveKeys (t : Table) : Table :=
  { t with hasPipelineKey := true,
           rows := t.rows.map (fun r =>
             { r with pipelineKey := concatKey r.pipelineName r.runStart }) }

/-- app.py lines 61-64: `failed_df[failed_df['PipelineKey'] == selected_pipeline_key]`
followed by `.values[0]` — the first row whose key matches the selection. -/
def resolveKey (t : Table) (k : String) : Option Row :=
  (t.rows.filter (fun r => r.pipelineKey == Cell.str k)).head?

/-- Python `str(x)` on the extracted error cell: a missing value is the float
NaN and prints as `"nan"`. -/
def pyStr (c : Cell) : String :=
  match c with
  | Cell.na => "nan"
  | Cell.str s => s
  | Cell.dt n => toString n
  | Cell.date n => toString n

/-- Python truthiness test `not error_text`: the float NaN is truthy
(`bool(nan)` is `True`), an empty string is falsy. -/
def pyFalsy (c : Cell) : Bool :=
  match c with
  | Cell.na => false
  | Cell.str s => s == ""
  | _ => false

/-- app.py line 67: `not error_text or str(error_text).strip() == ""` — the
condition under which the remote call is skipped and the info notice shown. -/
def skipsRemoteCall (errorCell : Cell) : Bool :=
  pyFalsy errorCell || pyStrip (pyStr errorCell) == ""

/-- Number of `model.invoke` calls issued by one activation of the button
(app.py lines 66-76): zero when the skip condition holds, otherwise one. -/
def remoteCalls (errorCell : Cell) : Nat :=
  if skipsRemoteCall errorCell then 0 else 1

/-- Whether the informational notice (app.py line 68) is shown for one
button activation. -/
def infoNoticeShown (errorCell : Cell) : Bool :=
  skipsRemoteCall errorCell

/-! ### Dashboard (tab 2) -/

/-- app.py line 92: the dashboard requires both the `Status` and the
`Pipeline name` column; otherwise it degrades to a warning. -/
def dashboardReady (t : Table) : Bool :=
  t.hasStatus && t.hasPipelineName

/-- Distinct elements of a list in order of first appearance, the order in
which a pandas hash table hands back its unique keys. -/
def dedupFirstAux [DecidableEq α] : List α → List α → List α
  | [], _ => []
  | x :: xs, seen =>
      if x ∈ seen then dedupFirstAux xs seen
      else x :: dedupFirstAux xs (x :: seen)

/-- Distinct elements in order of first appearance. -/
def dedupFirst [DecidableEq α] (l : List α) : List α :=
  dedupFirstAux l []

/-- Each distinct element of `l` (first-appearance order) paired with its
number of occurrences in `l`. -/
def countsOf [DecidableEq α] (l : List α) : List (α × Nat) :=
  (dedupFirst l).map (fun v => (v, l.count v))

/-- Stable insertion for a descending sort by `key`: `x` is placed before the
first element whose key is not larger, so elements with equal keys keep their
relative order. -/
def insertDescBy (key : α → Nat) (x : α) : List α → List α
  | [] => [x]
  | y :: ys =>
      if key x < key y then y :: insertDescBy key x ys
      else x :: y :: ys

/-- Stable insertion sort, descending by `key`. -/
def sortDescBy (key : α → Nat) : List α → List α
  | [] => []
  | x :: xs => insertDescBy key x (sortDescBy key xs)

/-- Stable insertion for an ascending sort by `key`. -/
def insertAscBy (key : α → Nat) (x : α) : List α → List α
  | [] => [x]
  | y :: ys =>
      if key y < key x then y :: insertAscBy key x ys
      else x :: y :: ys

/-- Stable insertion sort, ascending by `key`. -/
def sortAscBy (key : α → Nat) : List α → List α
  | [] => []
  | x :: xs => insertAscBy key x (sortAscBy key xs)

/-- Model of the external library call `Series.value_counts()`: the count of
each unique value, keys in order of first appearance, sorted by count in
descending order with a stable sort (so ties stay in first-appearance order),
missing values dropped by the callers below before counting. -/
def valueCounts [DecidableEq α] (l : List α) : List (α × Nat) :=
  sortDescBy Prod.snd (countsOf l)

/-- First value bound to key `k` in an association list, if any. -/
def lookupKey [DecidableEq α] : List (α × Nat) → α → Option Nat
  | [], _ => none
  | p :: ps, k => if p.1 = k then some p.2 else lookupKey ps k

/-- Model of `series.get(k, default)` on a counts series: look the key up in
the index, fall back to the default when absent. -/
def seriesGet [DecidableEq α] (vc : List (α × Nat)) (k : α) (dflt : Nat) : Nat :=
  match lookupKey vc k with
  | some n => n
  | none => dflt

/-- The lowercased status of a row, `none` when the status is missing. -/
def statusLower (r : Row) : Option String :=
  match r.status with
  | Cell.str s => some (pyLower s)
  | _ => none

/-- app.py line 98: `df['Status'].str.lower().value_counts()` input — the
lowercased string statuses in row order; missing statuses lower to NaN and
are dropped by `value_counts`. -/
def lowerStatuses (t : Table) : List String :=
  t.rows.filterMap statusLower

/-- The four KPI metrics of app.py lines 98-104. -/
structure Metrics where
  succeeded : Nat
  failed : Nat
  inProgress : Nat
  queued : Nat
deriving DecidableEq, Repr

/-- app.py lines 98-104: `status_counts.get('succeeded', 0)` and friends. -/
def keyMetrics (t : Table) : Metrics :=
  { succeeded := seriesGet (valueCounts (lowerStatuses t)) "succeeded" 0
    failed := seriesGet (valueCounts (lowerStatuses t)) "failed" 0
    inProgress := seriesGet (valueCounts (lowerStatuses t)) "inprogress" 0
    queued := seriesGet (valueCounts (lowerStatuses t)) "queued" 0 }

/-- The pipeline name of a row as a string, `none` when missing. -/
def nameCell (r : Row) : Option String :=
  match r.pipelineName with
  | Cell.str s => some s
  | _ => none

/-- app.py line 125: the `Pipeline name` values of the failed rows, in row
order; missing names are dropped by `value_counts`. -/
def failedNames (t : Table) : List String :=
  (failedRows t).filterMap nameCell

/-- app.py lines 124-129: `value_counts().nlargest(5)`.  On the
descending-sorted counts series, `nlargest(5)` with its default
`keep='first'` keeps the first five entries. -/
def topFailing (t : Table) : List (String × Nat) :=
  (valueCounts (failedNames t)).take 5

/-- `pd.to_datetime(c, errors='coerce')` for one cell, with the library's
parser abstracted as `parse`: unparseable strings and missing values
coerce to NaT. -/
def toDatetimeCell (parse : String → Option Nat) (c : Cell) : Cell :=
  match c with
  | Cell.str s =>
      match parse s with
      | some n => Cell.dt n
      | none => Cell.na
  | Cell.dt n => Cell.dt n
  | _ => Cell.na

/-- `.dt.date` for one cell: the calendar date of a datetime, NaT for NaT. -/
def dateOfCell (dateOf : Nat → Nat) (c : Cell) : Cell :=
  match c with
  | Cell.dt n => Cell.date (dateOf n)
  | _ => Cell.na

/-- app.py lines 142-144: when a `Run start` column exists, overwrite it in
place with the coerced datetimes and add the derived `Date` column; the
shared table the other views read is mutated. -/
def dashboardTrend (parse : String → Option Nat) (dateOf : Nat → Nat)
    (t : Table) : Table :=
  if t.hasRunStart then
    { t with hasDate := true,
             rows := t.rows.map (fun r =>
               let d := toDatetimeCell parse r.runStart
               { r with runStart := d, dateVal := dateOfCell dateOf d }) }
  else t

/-- The calendar date a row lands in, `none` when its `Run start` is missing
or unparseable. -/
def rowDate (parse : String → Option Nat) (dateOf : Nat → Nat) (r : Row) :
    Option Nat :=
  match toDatetimeCell parse r.runStart with
  | Cell.dt n => some (dateOf n)
  | _ => none

/-- app.py line 145: `df.groupby('Date').size()` — one bucket per distinct
date, group keys sorted ascending, NaT keys dropped. -/
def dailyRuns (parse : String → Option Nat) (dateOf : Nat → Nat)
    (t : Table) : List (Nat × Nat) :=
  sortAscBy Prod.fst (countsOf (t.rows.filterMap (rowDate parse dateOf)))

/-! ### Concrete sample tables, used by the witnesses below -/

/-- A row with the four source columns filled in. -/
def mkRow (pn rs st er : Cell) : Row :=
  { pipelineName := pn, runStart := rs, status := st, error := er }

def sampleRows : List Row :=
  [ mkRow (Cell.str "A") (Cell.str "6/10/2025, 5:03:19 PM") (Cell.str "Failed")
      (Cell.str "E1"),
    mkRow (Cell.str "B") (Cell.str "6/11/2025, 1:00:00 AM") (Cell.str "Succeeded")
      Cell.na,
    mkRow (Cell.str "A") (Cell.str "6/12/2025, 2:00:00 AM") (Cell.str "failed")
      Cell.na ]

/-- A small well-formed upload. -/
def sampleTable : Table := { rows := sampleRows }

/-- An upload without a `Status` column. -/
def noStatusTable : Table :=
  { hasStatus := false,
    rows := [ mkRow (Cell.str "A") (Cell.str "x") Cell.na (Cell.str "E") ] }

/-- A failed row with only a pipeline name, for the ranking example. -/
def rankRow (pn : String) : Row :=
  { pipelineName := Cell.str pn, status := Cell.str "Failed" }

/-- The spec's ranking example: failures named A, B, A, C, A, B. -/
def rankTable : Table :=
  { rows := [rankRow "A", rankRow "B", rankRow "A", rankRow "C",
             rankRow "A", rankRow "B"] }

/-- A row with only a status, for the KPI example. -/
def statusRow (st : String) : Row := { status := Cell.str st }

/-- The spec's KPI example: statuses Succeeded, Failed, Failed, Queued,
succeeded. -/
def kpiTable : Table :=
  { rows := [statusRow "Succeeded", statusRow "Failed", statusRow "Failed",
             statusRow "Queued", statusRow "succeeded"] }

/-- One failed row after key derivation, for the resolution witness. -/
def keyRow : Row :=
  { pipelineName := Cell.str "A", runStart := Cell.str "T1",
    status := Cell.str "Failed", pipelineKey := Cell.str "A - T1" }

/-- A one-row failed subset with its `PipelineKey` column written. -/
def keyTable : Table :=
  deriveKeys { rows := [mkRow (Cell.str "A") (Cell.str "T1")
    (Cell.str "Failed") Cell.na] }

/-- A concrete stand-in for the external datetime parser. -/
def sampleParse (s : String) : Option Nat :=
  if s = "2025-06-10 05:03" then some 100
  else if s = "2025-06-11 01:00" then some 130
  else none

/-- A concrete stand-in for calendar-date extraction. -/
def sampleDateOf (n : Nat) : Nat := n / 24

/-- A row with only a run start. -/
def trendRow (rs : Cell) : Row := { runStart := rs }

/-- Run starts with two parseable dates, one unparseable string and one
missing value. -/
def trendTable : Table :=
  { rows := [trendRow (Cell.str "2025-06-11 01:00"), trendRow (Cell.str "garbage"),
             trendRow (Cell.str "2025-06-10 05:03"), trendRow Cell.na,
             trendRow (Cell.str "2025-06-10 05:03")] }

/-! ### Helper lemmas about the counting and sorting machinery -/

theorem mem_dedupFirstAux [DecidableEq α] (l : List α) (a : α) :
    ∀ seen : List α, a ∈ dedupFirstAux l seen ↔ a ∈ l ∧ a ∉ seen := by
  induction l with
  | nil => intro seen; simp [dedupFirstAux]
  | cons x xs ih =>
      intro seen
      by_cases hx : x ∈ seen
      · rw [dedupFirstAux, if_pos hx, ih]
        simp only [List.mem_cons]
        constructor
        · rintro ⟨h1, h2⟩
          exact ⟨Or.inr h1, h2⟩
        · rintro ⟨h1 | h1, h2⟩
          · subst h1
            exact absurd hx h2
          · exact ⟨h1, h2⟩
      · rw [dedupFirstAux, if_neg hx]
        simp only [List.mem_cons, ih, not_or]
        by_cases hax : a = x
        · subst hax
          tauto
        · tauto

theorem mem_dedupFirst [DecidableEq α] (l : List α) (a : α) :
    a ∈ dedupFirst l ↔ a ∈ l := by
  rw [dedupFirst, mem_dedupFirstAux]
  simp

theorem nodup_dedupFirstAux [DecidableEq α] (l : List α) :
    ∀ seen : List α, (dedupFirstAux l seen).Nodup := by
  induction l with
  | nil => intro seen; simp [dedupFirstAux]
  | cons x xs ih =>
      intro seen
      by_cases hx : x ∈ seen
      · rw [dedupFirstAux, if_pos hx]
        exact ih seen
      · rw [dedupFirstAux, if_neg hx]
        refine List.nodup_cons.mpr ⟨?_, ih (x :: seen)⟩
        intro hmem
        exact ((mem_dedupFirstAux xs x (x :: seen)).mp hmem).2 (List.mem_cons_self x seen)

theorem nodup_dedupFirst [DecidableEq α] (l : List α) : (dedupFirst l).Nodup :=
  nodup_dedupFirstAux l []

theorem mem_insertDescBy (key : α → Nat) (x a : α) (l : List α) :
    a ∈ insertDescBy key x l ↔ a = x ∨ a ∈ l := by
  induction l with
  | nil => simp [insertDescBy]
  | cons y ys ih =>
      rw [insertDescBy]
      by_cases h : key x < key y
      · rw [if_pos h]
        simp only [List.mem_cons, ih]
        tauto
      · rw [if_neg h]
        simp [List.mem_cons]

theorem perm_insertDescBy (key : α → Nat) (x : α) (l : List α) :
    (insertDescBy key x l).Perm (x :: l) := by
  induction l with
  | nil => simp [insertDescBy]
  | cons y ys ih =>
      rw [insertDescBy]
      by_cases h : key x < key y
      · rw [if_pos h]
        exact (ih.cons y).trans (List.Perm.swap x y ys)
      · rw [if_neg h]

theorem perm_sortDescBy (key : α → Nat) (l : List α) :
    (sortDescBy key l).Perm l := by
  induction l with
  | nil => simp [sortDescBy]
  | cons x xs ih =>
      rw [sortDescBy]
      exact (perm_insertDescBy key x _).trans (ih.cons x)

theorem pairwise_insertDescBy (key : α → Nat) (x : α) (l : List α)
    (h : l.Pairwise (fun a b => key b ≤ key a)) :
    (insertDescBy key x l).Pairwise (fun a b => key b ≤ key a) := by
  induction l with
  | nil => simp [insertDescBy]
  | cons y ys ih =>
      rw [insertDescBy]
      rcases List.pairwise_cons.mp h with ⟨hy, hys⟩
      by_cases hk : key x < key y
      · rw [if_pos hk]
        refine List.pairwise_cons.mpr ⟨?_, ih hys⟩
        intro z hz
        rcases (mem_insertDescBy key x z ys).mp hz with rfl | hz2
        · exact Nat.le_of_lt hk
        · exact hy z hz2
      · rw [if_neg hk]
        refine List.pairwise_cons.mpr ⟨?_, h⟩
        intro z hz
        rcases List.mem_cons.mp hz with rfl | hz2
        · exact Nat.le_of_not_lt hk
        · exact Nat.le_trans (hy z hz2) (Nat.le_of_not_lt hk)

theorem pairwise_sortDescBy (key : α → Nat) (l : List α) :
    (sortDescBy key l).Pairwise (fun a b => key b ≤ key a) := by
  induction l with
  | nil => simp [sortDescBy]
  | cons x xs ih =>
      rw [sortDescBy]
      exact pairwise_insertDescBy key x _ ih

theorem mem_insertAscBy (key : α → Nat) (x a : α) (l : List α) :
    a ∈ insertAscBy key x l ↔ a = x ∨ a ∈ l := by
  induction l with
  | nil => simp [insertAscBy]
  | cons y ys ih =>
      rw [insertAscBy]
      by_cases h : key y < key x
      · rw [if_pos h]
        simp only [List.mem_cons, ih]
        tauto
      · rw [if_neg h]
        simp [List.mem_cons]

theorem perm_insertAscBy (key : α → Nat) (x : α) (l : List α) :
    (insertAscBy key x l).Perm (x :: l) := by
  induction l with
  | nil => simp [insertAscBy]
  | cons y ys ih =>
      rw [insertAscBy]
      by_cases h : key y < key x
      · rw [if_pos h]
        exact (ih.cons y).trans (List.Perm.swap x y ys)
      · rw [if_neg h]

theorem perm_sortAscBy (key : α → Nat) (l : List α) :
    (sortAscBy key l).Perm l := by
  induction l with
  | nil => simp [sortAscBy]
  | cons x xs ih =>
      rw [sortAscBy]
      exact (perm_insertAscBy key x _).trans (ih.cons x)

theorem filter_insertDescBy (key : α → Nat) (x : α) (l : List α) (c : Nat) :
    (insertDescBy key x l).filter (fun p => key p == c) =
      if key x == c then x :: l.filter (fun p => key p == c)
      else l.filter (fun p => key p == c) := by
  induction l with
  | nil =>
      by_cases h : (key x == c) = true <;> simp [insertDescBy, h]
  | cons y ys ih =>
      rw [insertDescBy]
      by_cases hk : key x < key y
      · rw [if_pos hk]
        by_cases hxc : (key x == c) = true
        · have hxc' : key x = c := beq_iff_eq.mp hxc
          have hyc : (key y == c) = false := by
            refine beq_eq_false_iff_ne.mpr ?_
            omega
          simp [List.filter_cons, hyc, ih, hxc]
        · have hxc' : (key x == c) = false := by
            simpa using hxc
          by_cases hyc : (key y == c) = true <;>
            simp [List.filter_cons, hyc, ih, hxc']
      · rw [if_neg hk]
        by_cases hxc : (key x == c) = true <;>
          simp [List.filter_cons, hxc]

theorem filter_sortDescBy (key : α → Nat) (l : List α) (c : Nat) :
    (sortDescBy key l).filter (fun p => key p == c) =
      l.filter (fun p => key p == c) := by
  induction l with
  | nil => rfl
  | cons x xs ih =>
      rw [sortDescBy, filter_insertDescBy]
      by_cases hxc : (key x == c) = true <;>
        simp [List.filter_cons, hxc, ih]

theorem lookupKey_insertDescBy [DecidableEq α] (x : α × Nat) (l : List (α × Nat))
    (k : α) (hx : x.1 ∉ l.map Prod.fst) :
    lookupKey (insertDescBy Prod.snd x l) k =
      if x.1 = k then some x.2 else lookupKey l k := by
  induction l with
  | nil => simp [insertDescBy, lookupKey]
  | cons y ys ih =>
      have hxy : x.1 ≠ y.1 := by
        intro h
        exact hx (by simp [h])
      have hx2 : x.1 ∉ ys.map Prod.fst := by
        intro h
        exact hx (by simp [h])
      rw [insertDescBy]
      by_cases hk : x.2 < y.2
      · rw [if_pos hk]
        rw [lookupKey, ih hx2]
        by_cases hyk : y.1 = k
        · subst hyk
          rw [if_pos rfl, if_neg hxy]
          rw [lookupKey, if_pos rfl]
        · rw [if_neg hyk]
          by_cases hxk : x.1 = k
          · rw [if_pos hxk, if_pos hxk]
          · rw [if_neg hxk, if_neg hxk]
            rw [lookupKey, if_neg hyk]
      · rw [if_neg hk]
        rw [lookupKey]

theorem lookupKey_sortDescBy [DecidableEq α] (l : List (α × Nat))
    (h : (l.map Prod.fst).Nodup) (k : α) :
    lookupKey (sortDescBy Prod.snd l) k = lookupKey l k := by
  induction l with
  | nil => rfl
  | cons x xs ih =>
      rw [List.map_cons, List.nodup_cons] at h
      have hx2 : x.1 ∉ (sortDescBy Prod.snd xs).map Prod.fst := by
        intro hc
        apply h.1
        exact (((perm_sortDescBy Prod.snd xs).map Prod.fst).mem_iff).mp hc
      rw [sortDescBy, lookupKey_insertDescBy x _ k hx2, ih h.2]
      rw [lookupKey]

theorem lookupKey_map_counts [DecidableEq α] (d : List α) (f : α → Nat) (k : α)
    (hd : d.Nodup) :
    lookupKey (d.map (fun v => (v, f v))) k =
      if k ∈ d then some (f k) else none := by
  induction d with
  | nil => simp [lookupKey]
  | cons v d ih =>
      rcases List.nodup_cons.mp hd with ⟨_, hd2⟩
      rw [List.map_cons, lookupKey]
      by_cases hvk : v = k
      · subst hvk
        simp [ih hd2]
      · rw [if_neg hvk, ih hd2]
        by_cases hkd : k ∈ d
        · simp [hkd, List.mem_cons]
        · have hkv : k ≠ v := fun h => hvk h.symm
          simp [hkd, hkv, List.mem_cons]

theorem map_fst_countsOf [DecidableEq α] (l : List α) :
    (countsOf l).map Prod.fst = dedupFirst l := by
  have hc : (Prod.fst ∘ fun v : α => (v, l.count v)) = id := rfl
  rw [countsOf, List.map_map, hc, List.map_id]

theorem seriesGet_valueCounts [DecidableEq α] (l : List α) (k : α) :
    seriesGet (valueCounts l) k 0 = l.count k := by
  have hnd : ((countsOf l).map Prod.fst).Nodup := by
    rw [map_fst_countsOf]
    exact nodup_dedupFirst l
  rw [seriesGet, valueCounts, lookupKey_sortDescBy _ hnd k, countsOf,
    lookupKey_map_counts _ _ _ (nodup_dedupFirst l)]
  by_cases hk : k ∈ dedupFirst l
  · simp [hk]
  · have hkl : k ∉ l := fun h => hk ((mem_dedupFirst l k).mpr h)
    simp [hk, List.count_eq_zero.mpr hkl]

theorem length_filterMap_eq_countP (f : α → Option β) (l : List α) :
    (l.filterMap f).length = l.countP (fun a => (f a).isSome) := by
  induction l with
  | nil => rfl
  | cons a l ih =>
      cases h : f a <;>
        simp [List.filterMap_cons, h, List.countP_cons, ih]

theorem mem_countsOf [DecidableEq α] (l : List α) (p : α × Nat)
    (hp : p ∈ countsOf l) : p.1 ∈ l ∧ p.2 = l.count p.1 := by
  rw [countsOf] at hp
  rcases List.mem_map.mp hp with ⟨v, hv, hveq⟩
  cases hveq
  exact ⟨(mem_dedupFirst l v).mp hv, rfl⟩

theorem countsOf_mem_of_mem [DecidableEq α] (l : List α) (a : α) (ha : a ∈ l) :
    (a, l.count a) ∈ countsOf l := by
  rw [countsOf]
  exact List.mem_map.mpr ⟨a, (mem_dedupFirst l a).mpr ha, rfl⟩

theorem head?_filter_eq_find? (p : α → Bool) (l : List α) :
    (l.filter p).head? = l.find? p := by
  induction l with
  | nil => rfl
  | cons a l ih =>
      by_cases h : p a <;> simp [List.filter_cons, List.find?_cons, h, ih]

theorem find?_unique (p : α → Bool) (r : α) (hp : p r = true) :
    ∀ l : List α, r ∈ l → (∀ s ∈ l, p s = true → s = r) → l.find? p = some r := by
  intro l
  induction l with
  | nil => intro hr _; cases hr
  | cons a l ih =>
      intro hr hu
      by_cases ha : p a = true
      · have haa : a = r := hu a (List.mem_cons_self a l) ha
        subst haa
        simp [List.find?_cons, ha]
      · have hra : r ≠ a := fun h => ha (h ▸ hp)
        have hr2 : r ∈ l := by
          rcases List.mem_cons.mp hr with h | h
          · exact absurd h hra
          · exact h
        rw [List.find?_cons]
        simp only [ha]
        exact ih hr2 (fun s hs hps => hu s (List.mem_cons_of_mem a hs) hps)

theorem sum_countsOf [DecidableEq α] (l : List α) :
    ((countsOf l).map Prod.snd).sum = l.length := by
  have h1 : (countsOf l).map Prod.snd = (dedupFirst l).map (fun v => l.count v) := by
    simp [countsOf, List.map_map, Function.comp]
  have hperm : (dedupFirst l).Perm l.dedup := by
    refine (List.perm_ext_iff_of_nodup (nodup_dedupFirst l) l.nodup_dedup).mpr ?_
    intro a
    rw [mem_dedupFirst, List.mem_dedup]
  rw [h1, (hperm.map (fun v => l.count v)).sum_eq]
  exact List.sum_map_count_dedup_eq_length l

/-! ### The claims -/

/-- C1: for every uploaded table with a `Status` column, the failure filter
with the toggle on returns exactly the rows whose status value lowercased
equals "failed" — a sublist of the original rows (so in original order),
containing each failed row with its original multiplicity and nothing else —
and with the toggle off it returns the full table. -/
theorem claim1_failure_filter (t : Table) (hS : t.hasStatus = true) :
    ((failureFilter t true).filtered.rows.Sublist t.rows
      ∧ (∀ r ∈ (failureFilter t true).filtered.rows, isFailedCell r.status = true)
      ∧ (∀ r ∈ t.rows, isFailedCell r.status = true →
          r ∈ (failureFilter t true).filtered.rows)
      ∧ (∀ r : Row, (failureFilter t true).filtered.rows.count r =
          if isFailedCell r.status then t.rows.count r else 0))
    ∧ (failureFilter t false).filtered = t := by
  have hrows : (failureFilter t true).filtered.rows
      = t.rows.filter (fun r => isFailedCell r.status) := by
    simp [failureFilter, hS, failedRows]
  refine ⟨⟨?_, ?_, ?_, ?_⟩, ?_⟩
  · rw [hrows]
    exact List.filter_sublist t.rows
  · rw [hrows]
    intro r hr
    exact (List.mem_filter.mp hr).2
  · rw [hrows]
    intro r hr hf
    exact List.mem_filter.mpr ⟨hr, hf⟩
  · rw [hrows]
    intro r
    by_cases hf : isFailedCell r.status = true
    · rw [if_pos hf]
      exact List.count_filter hf
    · rw [if_neg (by simpa using hf)]
      refine List.count_eq_zero.mpr ?_
      intro hm
      exact hf (List.mem_filter.mp hm).2
  · simp [failureFilter]

/-- C1 witness: on the sample table the third row (status "failed") is kept
by the filter, and the toggle-off branch returns the table itself. -/
theorem claim1_witness :
    mkRow (Cell.str "A") (Cell.str "6/12/2025, 2:00:00 AM") (Cell.str "failed")
        Cell.na ∈ (failureFilter sampleTable true).filtered.rows
      ∧ (failureFilter sampleTable false).filtered = sampleTable :=
  ⟨(claim1_failure_filter sampleTable rfl).1.2.2.1 _ (by decide) (by decide),
   (claim1_failure_filter sampleTable rfl).2⟩

/-- C2 (code bug at app.py line 67): when the selected row's `Error` cell is
a missing value, the guard `not error_text or str(error_text).strip() == ""`
does not fire — the float NaN is truthy and `str(nan).strip()` is the
non-empty string `"nan"` — so the button issues a remote call and shows no
informational notice; empty and whitespace-only error strings are skipped
with the notice, and a non-empty error issues exactly one call. -/
theorem claim2_missing_error_still_calls :
    remoteCalls Cell.na = 1
    ∧ infoNoticeShown Cell.na = false
    ∧ remoteCalls (Cell.str "") = 0
    ∧ infoNoticeShown (Cell.str "") = true
    ∧ remoteCalls (Cell.str "   ") = 0
    ∧ infoNoticeShown (Cell.str "   ") = true
    ∧ remoteCalls (Cell.str "ErrorCode=Timeout") = 1 := by
  decide

/-- C6 (code bug at app.py line 53): with the toggle on and no `Status`
column, the filter block does warn and display the full table unchanged, but
the Ask-AI gating check then reads the variable `failed_df`, which was never
assigned on this code path, raising NameError and halting the render instead
of continuing in degraded mode. -/
theorem claim6_missing_status_halts :
    failureFilter noStatusTable true =
      { filtered := noStatusTable, warned := true, failedTable := none }
    ∧ tab1Gate true (failureFilter noStatusTable true) = Gate.nameError := by
  decide

/-- C9: for every table with a `Status` column, the AI diagnosis section is
offered exactly when the failed-only toggle is on and the failed subset is
non-empty; and regardless of the table, nothing is offered while the toggle
is off. -/
theorem claim9_ask_ai_gating (t : Table) (toggle : Bool) (hS : t.hasStatus = true) :
    (tab1Gate toggle (failureFilter t toggle) = Gate.offered ↔
      toggle = true ∧ failedRows t ≠ [])
    ∧ tab1Gate false (failureFilter t false) = Gate.hidden := by
  constructor
  · cases toggle
    · simp [tab1Gate, failureFilter]
    · simp only [tab1Gate, failureFilter, hS, if_true, if_pos]
      by_cases he : failedRows t = []
      · simp [he]
      · simp [he, List.isEmpty_iff]
  · simp [tab1Gate]

/-- C9 witness: on the sample table (one failed row) with the toggle on the
section is offered. -/
theorem claim9_witness :
    tab1Gate true (failureFilter sampleTable true) = Gate.offered :=
  (claim9_ask_ai_gating sampleTable true rfl).1.mpr ⟨rfl, by decide⟩

/-- C3: the derived key of every row is its `Pipeline name` concatenated with
`" - "` and the raw `Run start` string (missing operands propagate to a
missing key); resolving a selected key returns the first row in table order
whose key matches, and in particular the unique matching row when exactly one
row matches. -/
theorem claim3_pipeline_key (t : Table) (k : String) (r : Row) :
    ((deriveKeys t).rows.map Row.pipelineKey
        = t.rows.map (fun s => concatKey s.pipelineName s.runStart))
    ∧ (∀ a b : String,
        concatKey (Cell.str a) (Cell.str b) = Cell.str (a ++ " - " ++ b))
    ∧ (resolveKey t k = t.rows.find? (fun s => s.pipelineKey == Cell.str k))
    ∧ (r ∈ t.rows → r.pipelineKey = Cell.str k →
        (∀ s ∈ t.rows, s.pipelineKey = Cell.str k → s = r) →
        resolveKey t k = some r) := by
  refine ⟨?_, fun a b => rfl, ?_, ?_⟩
  · have h : (deriveKeys t).rows = t.rows.map (fun s =>
        { s with pipelineKey := concatKey s.pipelineName s.runStart }) := rfl
    rw [h, List.map_map]
    rfl
  · rw [resolveKey]
    exact head?_filter_eq_find? _ t.rows
  · intro hr hk hu
    rw [resolveKey, head?_filter_eq_find?]
    refine find?_unique _ r (by simp [hk]) t.rows hr ?_
    intro s hs hps
    exact hu s hs (by simpa using hps)

/-- C3 witness: in a one-row failed subset with derived keys, resolving the
derived key "A - T1" returns that row. -/
theorem claim3_witness : resolveKey keyTable "A - T1" = some keyRow :=
  (claim3_pipeline_key keyTable "A - T1" keyRow).2.2.2 (by decide) (by decide)
    (by decide)

/-- C4: every entry of the top-5 list is a failed pipeline name with its
exact count of failed rows; the list is sorted by count in descending order
and has at most five entries; entries with equal counts appear in
first-encountered order (their slice of the list is a sublist of the
first-occurrence count list); and on the spec's example A,B,A,C,A,B the
result is A=3, B=2, C=1 in that order. -/
theorem claim4_top_failing (t : Table) (_hS : t.hasStatus = true)
    (_hP : t.hasPipelineName = true) :
    (∀ p ∈ topFailing t, p.1 ∈ failedNames t
      ∧ p.2 = t.rows.countP (fun r => nameCell r == some p.1 && isFailedCell r.status))
    ∧ (topFailing t).Pairwise (fun p q => q.2 ≤ p.2)
    ∧ (topFailing t).length ≤ 5
    ∧ (∀ c : Nat, ((topFailing t).filter (fun p => p.2 == c)).Sublist
        ((countsOf (failedNames t)).filter (fun p => p.2 == c)))
    ∧ topFailing rankTable = [("A", 3), ("B", 2), ("C", 1)] := by
  have hcount : ∀ n : String, (failedNames t).count n
      = t.rows.countP (fun r => nameCell r == some n && isFailedCell r.status) := by
    intro n
    rw [failedNames, List.count_filterMap, failedRows, List.countP_filter]
  refine ⟨?_, ?_, ?_, ?_, ?_⟩
  · intro p hp
    have hp2 : p ∈ countsOf (failedNames t) :=
      (perm_sortDescBy Prod.snd _).mem_iff.mp (List.mem_of_mem_take hp)
    rcases mem_countsOf _ p hp2 with ⟨h1, h2⟩
    exact ⟨h1, by rw [h2, hcount]⟩
  · exact List.Pairwise.sublist (List.take_sublist 5 _)
      (pairwise_sortDescBy Prod.snd _)
  · exact List.length_take_le 5 _
  · intro c
    have h1 := List.Sublist.filter (fun p : String × Nat => p.2 == c)
      (List.take_sublist 5 (sortDescBy Prod.snd (countsOf (failedNames t))))
    rw [filter_sortDescBy] at h1
    exact h1
  · decide

/-- C4 witness: the ranking example instantiated through the theorem. -/
theorem claim4_witness : topFailing rankTable = [("A", 3), ("B", 2), ("C", 1)] :=
  (claim4_top_failing rankTable rfl rfl).2.2.2.2

/-- C5: the four dashboard metrics are exactly the numbers of rows whose
status value lowercased equals "succeeded", "failed", "inprogress" and
"queued" respectively — a status absent from the table simply yields zero —
and on the spec's example the counts are 2, 2, 0 and 1. -/
theorem claim5_kpi_counts (t : Table) (_hS : t.hasStatus = true) :
    ((keyMetrics t).succeeded
        = t.rows.countP (fun r => statusLower r == some "succeeded"))
    ∧ ((keyMetrics t).failed
        = t.rows.countP (fun r => statusLower r == some "failed"))
    ∧ ((keyMetrics t).inProgress
        = t.rows.countP (fun r => statusLower r == some "inprogress"))
    ∧ ((keyMetrics t).queued
        = t.rows.countP (fun r => statusLower r == some "queued"))
    ∧ keyMetrics kpiTable =
        { succeeded := 2, failed := 2, inProgress := 0, queued := 1 } := by
  have key : ∀ s : String, seriesGet (valueCounts (lowerStatuses t)) s 0
      = t.rows.countP (fun r => statusLower r == some s) := by
    intro s
    rw [seriesGet_valueCounts, lowerStatuses, List.count_filterMap]
  exact ⟨key _, key _, key _, key _, by decide⟩

/-- C5 witness: the KPI example instantiated through the theorem. -/
theorem claim5_witness :
    keyMetrics kpiTable =
      { succeeded := 2, failed := 2, inProgress := 0, queued := 1 } :=
  (claim5_kpi_counts kpiTable rfl).2.2.2.2

/-- C7: every bucket of the daily-runs aggregation counts exactly the rows
whose `Run start` parses to that calendar date; a date has a bucket exactly
when some row parses to it; and the bucket totals sum to the number of
parseable rows, so rows with unparseable or missing `Run start` are excluded
from every bucket without failing the aggregation. -/
theorem claim7_daily_runs (parse : String → Option Nat) (dateOf : Nat → Nat)
    (t : Table) (_hR : t.hasRunStart = true) :
    (∀ p ∈ dailyRuns parse dateOf t,
        p.2 = t.rows.countP (fun r => rowDate parse dateOf r == some p.1))
    ∧ (∀ d : Nat, (∃ n, (d, n) ∈ dailyRuns parse dateOf t) ↔
        ∃ r ∈ t.rows, rowDate parse dateOf r = some d)
    ∧ ((dailyRuns parse dateOf t).map Prod.snd).sum
        = t.rows.countP (fun r => (rowDate parse dateOf r).isSome) := by
  have hperm : (dailyRuns parse dateOf t).Perm
      (countsOf (t.rows.filterMap (rowDate parse dateOf))) :=
    perm_sortAscBy Prod.fst _
  refine ⟨?_, ?_, ?_⟩
  · intro p hp
    have hp2 := hperm.mem_iff.mp hp
    rcases mem_countsOf _ p hp2 with ⟨_, h2⟩
    rw [h2, List.count_filterMap]
  · intro d
    constructor
    · rintro ⟨n, hn⟩
      have hn2 := hperm.mem_iff.mp hn
      rcases mem_countsOf _ (d, n) hn2 with ⟨h1, _⟩
      exact List.mem_filterMap.mp h1
    · rintro ⟨r, hr, hrd⟩
      have hd : d ∈ t.rows.filterMap (rowDate parse dateOf) :=
        List.mem_filterMap.mpr ⟨r, hr, hrd⟩
      exact ⟨(t.rows.filterMap (rowDate parse dateOf)).count d,
        hperm.mem_iff.mpr (countsOf_mem_of_mem _ d hd)⟩
  · rw [(hperm.map Prod.snd).sum_eq, sum_countsOf, length_filterMap_eq_countP]

/-- C7 witness: in the sample trend table, the bucket (date 4, count 2)
produced by the aggregation counts exactly the two rows parsing to date 4. -/
theorem claim7_witness :
    (2 : Nat) = trendTable.rows.countP
      (fun r => rowDate sampleParse sampleDateOf r == some 4) :=
  (claim7_daily_runs sampleParse sampleDateOf trendTable rfl).1
    ((4 : Nat), (2 : Nat)) (by decide)

/-- C10: rendering mutates the shared state — the dashboard's trend view
rewrites the shared table (its `Run start` cells become the coerced parse
results, with unparseable values becoming missing, and a `Date` column
appears), so the table it leaves behind differs from the as-parsed table;
and key derivation writes a `PipelineKey` column into the failed subset,
changing that table as well. -/
theorem claim10_render_mutation (parse : String → Option Nat)
    (dateOf : Nat → Nat) (t u : Table) (hR : t.hasRunStart = true)
    (hD : t.hasDate = false) (hK : u.hasPipelineKey = false) :
    dashboardTrend parse dateOf t ≠ t
    ∧ (dashboardTrend parse dateOf t).hasDate = true
    ∧ ((dashboardTrend parse dateOf t).rows.map Row.runStart
        = t.rows.map (fun r => toDatetimeCell parse r.runStart))
    ∧ ((dashboardTrend parse dateOf t).rows.map Row.dateVal
        = t.rows.map (fun r => dateOfCell dateOf (toDatetimeCell parse r.runStart)))
    ∧ (deriveKeys u).hasPipelineKey = true
    ∧ deriveKeys u ≠ u := by
  have hrows : (dashboardTrend parse dateOf t).rows = t.rows.map (fun r =>
      let d := toDatetimeCell parse r.runStart
      { r with runStart := d, dateVal := dateOfCell dateOf d }) := by
    simp [dashboardTrend, hR]
  have hT : (dashboardTrend parse dateOf t).hasDate = true := by
    simp [dashboardTrend, hR]
  refine ⟨?_, hT, ?_, ?_, rfl, ?_⟩
  · intro h
    rw [h, hD] at hT
    simp at hT
  · rw [hrows, List.map_map]
    rfl
  · rw [hrows, List.map_map]
    rfl
  · intro h
    have hcongr := congrArg Table.hasPipelineKey h
    rw [hK] at hcongr
    simp [deriveKeys] at hcongr

/-- C10 witness: the trend render flips the `Date`-column flag on the sample
trend table. -/
theorem claim10_witness :
    (dashboardTrend sampleParse sampleDateOf trendTable).hasDate = true :=
  (claim10_render_mutation sampleParse sampleDateOf trendTable sampleTable rfl
    rfl rfl).2.1

end ADF
